import Mathlib

/-!
Verification of the bold-data-fun scripts against their specification.

Each Python script is shallowly embedded as executable Lean definitions:
tabular data becomes lists of rows (cells are `Option String`, `none`
standing for a missing/NaN cell), the sunburst hierarchy becomes a nested
inductive tree, and floating-point percentage arithmetic is modelled over
`ℚ`.  Definitions follow the corresponding Python functions and keep their
names where possible.  The file is organised as: definitions for all five
scripts first, then the lemmas and theorems about them.
-/

namespace Sunburst

/-- The nested count tree built by `load_and_process_data` in
`sunburst_script.py`: a value in the hierarchy dictionary is either an
integer count (final level) or a nested dictionary.  Python dictionaries
preserve insertion order, so a dictionary is modelled as an association
list. -/
inductive HVal where
  | leaf (n : Nat)
  | node (kids : List (String × HVal))

mutual

/-- Models `calculate_total_recursive` (sunburst_script.py lines 168-172):
recursively sums all integer leaves of a nested dictionary. -/
def calculate_total_recursive : HVal → Nat
  | .leaf n => n
  | .node kids => totalOfList kids

/-- Sum of `calculate_total_recursive` over the values of a dictionary. -/
def totalOfList : List (String × HVal) → Nat
  | [] => 0
  | p :: rest => calculate_total_recursive p.2 + totalOfList rest

end

/-- Python dictionary assignment `m[k] = v`: replaces the value in place if
the key is present, otherwise appends the new binding at the end. -/
def dictInsert (m : List (String × HVal)) (k : String) (v : HVal) :
    List (String × HVal) :=
  if m.any (fun p => p.1 = k) then
    m.map (fun p => if p.1 = k then (k, v) else p)
  else m ++ [(k, v)]

/-- The keep test of `aggregate_small_slices`: `item_count >= threshold_count`
with `threshold_count = (threshold_percent / 100.0) * total_for_level`. -/
def keepSlice (thr total : ℚ) (p : String × HVal) : Bool :=
  decide (thr / 100 * total ≤ (calculate_total_recursive p.2 : ℚ))

/-- Models `aggregate_small_slices` (sunburst_script.py lines 78-119).  Splits the
level dictionary into items at/above the percentage threshold and items
below it; when there are at least two small items with positive combined
count, the small items are dropped and an entry `other_label ↦ other_total`
is written into the result dictionary, and the small keys are returned.
Otherwise the input dictionary is returned unchanged. -/
def aggregate_small_slices (d : List (String × HVal)) (thr total : ℚ)
    (lbl : String) : List (String × HVal) × List String :=
  if thr ≤ 0 then (d, [])
  else
    let main := d.filter (fun p => keepSlice thr total p)
    let small := d.filter (fun p => ! keepSlice thr total p)
    let otherTotal := totalOfList small
    if small.isEmpty = false ∧ 1 < small.length ∧ 0 < otherTotal then
      (dictInsert main lbl (.leaf otherTotal), small.map Prod.fst)
    else (d, [])

end Sunburst

namespace Merge

/-- Models `drop_duplicates(subset=['Sample ID'])` (bold_tsv_merger.py line 138,
bold_merged_tsv_merger.py line 175): keeps only the first row for each key,
preserving order.  A table is a list of (Sample ID, row payload) pairs. -/
def dedupByKey {ρ : Type} : List (String × ρ) → List (String × ρ)
  | [] => []
  | r :: rest => r :: dedupByKey (rest.filter (fun q => q.1 ≠ r.1))
termination_by l => l.length
decreasing_by
  simpa using Nat.lt_succ_of_le (List.length_filter_le _ rest)

/-- One `pd.merge(merged_df, df, on='Sample ID', how='outer')` step
(bold_tsv_merger.py line 151, bold_merged_tsv_merger.py line 211) on tables
whose keys are unique.  The accumulated table stores, per Sample ID, one
optional payload per input file merged so far (`none` = the file had no row
for that key, i.e. NaN cells); `n` is the number of files already merged.
Rows of the left table come first, then unmatched rows of the right table,
as pandas produces them. -/
def mergeStep {ρ : Type} (acc : List (String × List (Option ρ))) (n : Nat)
    (t : List (String × ρ)) : List (String × List (Option ρ)) :=
  acc.map (fun a => (a.1, a.2 ++ [(t.find? (fun p => p.1 = a.1)).map Prod.snd]))
    ++ (t.filter (fun p => ! acc.any (fun a => a.1 = p.1))).map
        (fun p => (p.1, List.replicate n none ++ [some p.2]))

/-- The sequential merge loop: fold `mergeStep` over the remaining files. -/
def mergeAux {ρ : Type} : List (String × List (Option ρ)) → Nat →
    List (List (String × ρ)) → List (String × List (Option ρ))
  | acc, _, [] => acc
  | acc, n, t :: ts => mergeAux (mergeStep acc n t) (n + 1) ts

/-- Sequential outer joins of a list of tables on the Sample ID key: the
first table initialises the merged table, the rest are merged in order. -/
def mergeAll {ρ : Type} : List (List (String × ρ)) → List (String × List (Option ρ))
  | [] => []
  | t :: ts => mergeAux (t.map (fun p => (p.1, [some p.2]))) 1 ts

/-- The row-level merge pipeline of `merge_tsv_files`
(bold_tsv_merger.py lines 115-155): each successfully processed file is
deduplicated on Sample ID and then outer-joined into the merged table. -/
def merge_tsv_files {ρ : Type} (files : List (List (String × ρ))) :
    List (String × List (Option ρ)) :=
  mergeAll (files.map dedupByKey)

/-- The row-level merge pipeline of `merge_bold_outputs`
(bold_merged_tsv_merger.py lines 138-213): identical dedup-then-outer-join
structure. -/
def merge_bold_outputs {ρ : Type} (files : List (List (String × ρ))) :
    List (String × List (Option ρ)) :=
  mergeAll (files.map dedupByKey)

end Merge

namespace BoldMerger

/-- A data-frame row: one optional cell per column name, as an association
list (pandas rows always carry every column; `none` models NaN). -/
def cellOf (row : List (String × Option String)) (c : String) : Option String :=
  match row.find? (fun p => p.1 = c) with
  | some p => p.2
  | none => none

/-- Models `series.fillna('')`: a missing cell reads as the empty string. -/
def fillna (x : Option String) : String := x.getD ""

/-- Column assignment `df[c] = v` on one row: replaces the cell in place if
the column exists, otherwise appends it. -/
def setCell (row : List (String × Option String)) (c : String) (v : Option String) :
    List (String × Option String) :=
  if row.any (fun p => p.1 = c) then
    row.map (fun p => if p.1 = c then (c, v) else p)
  else row ++ [(c, v)]

/-- A pandas DataFrame: ordered column names plus rows. -/
structure DataFrame where
  cols : List String
  rows : List (List (String × Option String))

/-- The duplicate-column marker used by the merge suffixes
(`suffixes=('', f'_DUPLICATE_FROM_{file_name}')`). -/
def dupMarker : List Char := "_DUPLICATE_FROM_".data

/-- Substring test, modelling Python's `pat in s`. -/
def containsSeq (pat l : List Char) : Bool :=
  l.tails.any (fun t => pat.isPrefixOf t)

/-- The part of `l` before the first occurrence of `pat`, modelling
`s.split(pat)[0]`. -/
def takeUntilSeq (pat : List Char) : List Char → List Char
  | [] => []
  | c :: rest => if pat.isPrefixOf (c :: rest) then [] else c :: takeUntilSeq pat rest

/-- Models `'_DUPLICATE_FROM_' in col` (bold_merged_tsv_merger.py line 217). -/
def isDupCol (c : String) : Bool := containsSeq dupMarker c.data

/-- Models `dup_col.split('_DUPLICATE_FROM_')[0]` (line 221). -/
def baseOf (c : String) : String := String.mk (takeUntilSeq dupMarker c.data)

/-- Models `base_series.where(base_series != '', dup_series)` after `fillna('')`
(lines 226-230): the base value when non-empty, otherwise the duplicate. -/
def combineCell (b d : Option String) : String :=
  if fillna b ≠ "" then fillna b else fillna d

/-- The transformed row after one duplicate column `dupc` is merged into its
base column: the base cell is overwritten with the combined value and the
duplicate entry is dropped. -/
def resolveRow (row : List (String × Option String)) (b dupc : String) :
    List (String × Option String) :=
  (setCell row b (some (combineCell (cellOf row b) (cellOf row dupc)))).filter
    (fun p => p.1 ≠ dupc)

/-- The body of the duplicate-resolution loop
(bold_merged_tsv_merger.py lines 219-242) for one duplicate column. -/
def resolveDupCol (df : DataFrame) (dupc : String) : DataFrame :=
  let b := baseOf dupc
  if df.cols.contains b then
    { cols := df.cols.removeAll [dupc],
      rows := df.rows.map (fun row => resolveRow row b dupc) }
  else df

/-- The duplicate-resolution loop (lines 217-242): iterate over the
duplicate columns present in the merged frame. -/
def resolveAllDups (df : DataFrame) : DataFrame :=
  (df.cols.filter (fun c => isDupCol c)).foldl resolveDupCol df

/-- Models `part.strip()` on raw cell text, as a character list. -/
def trimChars (l : List Char) : List Char :=
  ((l.dropWhile Char.isWhitespace).reverse.dropWhile Char.isWhitespace).reverse

/-- Models `line.split('\t')`, splitting at every tab and keeping empty parts. -/
def splitTab : List Char → List (List Char)
  | [] => [[]]
  | c :: rest =>
    let r := splitTab rest
    if c = '\t' then [] :: r
    else
      match r with
      | [] => [[c]]
      | h :: t => (c :: h) :: t

/-- Models `s.count(a)` for a single character. -/
def countChar (a : Char) (l : List Char) : Nat :=
  (l.filter (fun c => c = a)).length

/-- The UUID-cell test of `read_tsv_with_uuid_row`
(bold_merged_tsv_merger.py lines 49-50):
`part.strip() and len(part.strip()) == 36 and part.count('-') == 4`. -/
def isUuidCell (p : List Char) : Bool :=
  !(trimChars p).isEmpty && ((trimChars p).length == 36) && (countChar '-' p == 4)

/-- Models `uuid_count`: number of qualifying cells in the first line. -/
def uuid_count (parts : List (List Char)) : Nat :=
  (parts.filter isUuidCell).length

/-- First-line classification of `read_tsv_with_uuid_row` (lines 41-57):
the stripped first line is split on tabs; if at least one cell qualifies as
a UUID the row is recorded as the machine-readable header, otherwise no
UUID row is recorded. -/
def classifyFirstLine (line : List Char) : Option (List (List Char)) :=
  let parts := splitTab (trimChars line)
  if 0 < uuid_count parts then some parts else none

end BoldMerger

namespace ExtractTax

/-- A row of `merged_custom_fields.tsv` as used by `extract_taxonomy.py`:
the SampleID, the optional Plate ID and the Well Position (cells may be
NaN). -/
structure MergedRow where
  sampleId : Option String
  plateId : Option String
  well : Option String
deriving DecidableEq

/-- A row of `taxonomy.tsv`: its `Sample ID` plus the remaining taxonomy
columns. -/
structure TaxRow where
  sampleId : Option String
  fields : List (String × Option String)
deriving DecidableEq

/-- A row of `lab.tsv`: its `Sample ID` and `Process ID`. -/
structure LabRow where
  sampleId : Option String
  processId : Option String
deriving DecidableEq

/-- A record produced by `match_records`: the dictionary insertion order is
Process ID, Plate_Well, Sample ID, then the remaining taxonomy columns. -/
structure OutRow where
  processId : Option String
  plateWell : Option String
  sampleId : Option String
  fields : List (String × Option String)
deriving DecidableEq

/-- Pandas element-wise equality on possibly-NaN cells: NaN compares
unequal to everything, including NaN. -/
def optEq (a b : Option String) : Bool :=
  match a, b with
  | some x, some y => x == y
  | _, _ => false

/-- Models `series.isin(target_plate_ids)`: a NaN is never in the list. -/
def memOpt (a : Option String) (ts : List String) : Bool :=
  match a with
  | some x => ts.contains x
  | none => false

/-- Python f-string rendering of a possibly-NaN cell (`f"{nan}"` prints
`nan`). -/
def fstr (x : Option String) : String := x.getD "nan"

/-- Models `create_plate_well_id` (extract_taxonomy.py lines 56-58):
`f"{plate_id}_{well_position}"`. -/
def create_plate_well_id (plate well : Option String) : String :=
  fstr plate ++ "_" ++ fstr well

/-- Models `sample_id.split('_')` on the character list. -/
def splitUnderscore : List Char → List (List Char)
  | [] => [[]]
  | c :: rest =>
    let r := splitUnderscore rest
    if c = '_' then [] :: r
    else
      match r with
      | [] => [[c]]
      | h :: t => (c :: h) :: t

/-- Models `extract_plate_id_from_sample_id` (extract_taxonomy.py lines 61-70):
`None` for NaN or empty sample IDs, otherwise the first two
underscore-separated parts when the first is `BGE`. -/
def extract_plate_id_from_sample_id (sampleId : Option String) : Option String :=
  match sampleId with
  | none => none
  | some s =>
    if s = "" then none
    else
      let parts := splitUnderscore s.data
      if 2 ≤ parts.length ∧ parts.headD [] = "BGE".data then
        some (String.mk (parts.headD [] ++ ('_' :: (parts.tail.headD []))))
      else none

/-- Format detection (lines 82): `'Plate ID' in merged_df.columns and not
merged_df['Plate ID'].isna().all()`. -/
def fmt1_of (hasPlateCol : Bool) (merged : List MergedRow) : Bool :=
  hasPlateCol && merged.any (fun r => r.plateId.isSome)

/-- The plate identifier used for target selection: the Plate ID column in
format 1 (line 84), the plate ID extracted from the SampleID in format 2
(lines 93-94). -/
def rowPlate (fmt1 : Bool) (r : MergedRow) : Option String :=
  if fmt1 then r.plateId else extract_plate_id_from_sample_id r.sampleId

/-- The `Plate_Well` value of a target row: built from Plate ID and Well
Position in format 1 (lines 88-89), the SampleID itself in format 2
(line 98). -/
def plate_well_of (fmt1 : Bool) (r : MergedRow) : Option String :=
  if fmt1 then some (create_plate_well_id r.plateId r.well) else r.sampleId

/-- The target rows: rows of merged_custom_fields whose plate identifier is
among the requested plate IDs (lines 84 and 94). -/
def targetRows (fmt1 : Bool) (merged : List MergedRow) (targets : List String) :
    List MergedRow :=
  merged.filter (fun r => memOpt (rowPlate fmt1 r) targets)

/-- The taxonomy lookup of `match_records` (lines 107-117): first matching
on the row's SampleID, then — only if that found nothing — on its
Plate_Well, taking the first matching taxonomy row. -/
def firstTaxMatch (tax : List TaxRow) (sid pw : Option String) : Option TaxRow :=
  match tax.filter (fun t => optEq t.sampleId sid) with
  | [] => (tax.filter (fun t => optEq t.sampleId pw)).head?
  | t :: _ => some t

/-- The loop body of `match_records` (lines 103-135): when a taxonomy match
exists, emit a record whose Process ID is the first matching lab row's
Process ID (or `''` when there is none), followed by Plate_Well, the
taxonomy row's Sample ID, and the taxonomy columns. -/
def matchStep (tax : List TaxRow) (lab : List LabRow) (fmt1 : Bool)
    (acc : List OutRow) (r : MergedRow) : List OutRow :=
  let pw := plate_well_of fmt1 r
  match firstTaxMatch tax r.sampleId pw with
  | none => acc
  | some t =>
      acc ++ [OutRow.mk
        (match (lab.filter (fun l => optEq l.sampleId t.sampleId)).head? with
         | some l => l.processId
         | none => some "") pw t.sampleId t.fields]

/-- Models `match_records` (extract_taxonomy.py lines 73-137): select the target
rows and run the matching loop over them. -/
def match_records (hasPlateCol : Bool) (merged : List MergedRow)
    (tax : List TaxRow) (lab : List LabRow) (targets : List String) :
    List OutRow :=
  (targetRows (fmt1_of hasPlateCol merged) merged targets).foldl
    (matchStep tax lab (fmt1_of hasPlateCol merged)) []

/-- The per-row record constructor implied by the specification: a record
is produced exactly when a taxonomy row matches the SampleID or, failing
that, the Plate_Well; its Process ID is the first matching lab row's
Process ID or `''`. -/
def recordFor (tax : List TaxRow) (lab : List LabRow) (fmt1 : Bool)
    (r : MergedRow) : Option OutRow :=
  (firstTaxMatch tax r.sampleId (plate_well_of fmt1 r)).map (fun t =>
    OutRow.mk
      (match (lab.filter (fun l => optEq l.sampleId t.sampleId)).head? with
       | some l => l.processId
       | none => some "") (plate_well_of fmt1 r) t.sampleId t.fields)

/-- The output column order produced by `main` (lines 181-191): the result
dictionaries are created with Process ID, Plate_Well, Sample ID first and
then the taxonomy columns except Sample ID; the reordering step then moves
those three columns to the front. -/
def outputColumns (taxCols : List String) : List String :=
  let initial := ["Process ID", "Plate_Well", "Sample ID"]
      ++ taxCols.filter (fun c => c ≠ "Sample ID")
  ["Process ID", "Plate_Well", "Sample ID"]
    ++ initial.filter (fun c => c ∉ ["Process ID", "Plate_Well", "Sample ID"])

/-- The directory loop of `main` (extract_taxonomy.py lines 163-198): a
directory whose files fail to load (`load_and_process_files` catches the
exception, prints it and returns `None`) is skipped, results from the rest
are accumulated, and the script returns normally — exit status 0 — whether
or not any load failed. -/
def extract_taxonomy_main
    (dirs : List (Option (List MergedRow × List TaxRow × List LabRow)))
    (hasPlateCol : Bool) (targets : List String) : List OutRow × Nat :=
  (dirs.foldl (fun acc d =>
    match d with
    | none => acc
    | some t => acc ++ match_records hasPlateCol t.1 t.2.1 t.2.2 targets) [], 0)

end ExtractTax

namespace Mapper

/-- A CSV row as used by `sample_mapper.py`: the country cell and the
optional count-column cell. -/
structure MapRow where
  country : Option String
  countVal : Option String
deriving DecidableEq

/-- Models `df.dropna(subset=[country_column])` (sample_mapper.py line 128). -/
def dropNaCountry (rows : List MapRow) : List MapRow :=
  rows.filter (fun r => r.country.isSome)

/-- Models `df_clean.groupby(country_column)[count_column].nunique()` evaluated at
one country (sample_mapper.py line 136): the number of distinct non-NaN
values of the count column among the cleaned rows of that country. -/
def uniqueCountFor (rows : List MapRow) (c : String) : Nat :=
  (((dropNaCountry rows).filter (fun r => r.country = some c)).filterMap
    (fun r => r.countVal)).dedup.length

/-- The try/except of `main` in sample_mapper.py (lines 592-623): an
exception is caught, printed, and the script exits with status 1. -/
def mapper_main_exit (r : Except String Unit) : Nat :=
  match r with
  | .error _ => 1
  | .ok _ => 0

end Mapper

namespace Sunburst

/-- The try/except of `load_and_process_data` in sunburst_script.py
(lines 74-76): an exception is caught, printed, and the script exits with
status 1. -/
def sunburst_main_exit (load : Except String (List (String × HVal) × Nat)) : Nat :=
  match load with
  | .error _ => 1
  | .ok _ => 0

end Sunburst

namespace Merge

/-- The exit behaviour of both merger `main` functions: when the merge
function returns `False` (it logs its errors and returns `False` rather
than raising), `main` prints a failure message and exits with status 1
(bold_tsv_merger.py lines 390-398, bold_merged_tsv_merger.py lines
357-365). -/
def merger_main_exit (success : Bool) : Nat :=
  if success then 0 else 1

end Merge

namespace Sunburst

/-- Python `str(path)` rendering of the path list, e.g. `[\x27a\x27, \x27b\x27]`. -/
def pathStr (path : List String) : String :=
  "[" ++ String.intercalate ", " (path.map (fun s => "\x27" ++ s ++ "\x27")) ++ "]"

/-- Python substring containment `pat in s`. -/
def strContains (s pat : String) : Bool :=
  s.data.tails.any (fun t => pat.data.isPrefixOf t)

/-- The per-call aggregation step of `process_level` (sunburst_script.py
lines 238-255): for levels after the first, when a positive threshold is
set and the rendered path string does not contain the other-label, the
level dictionary is aggregated; `total_for_level` is the sum of the
dictionary's recursive totals in both of the code's branches. -/
def processedData (thr : ℚ) (lbl : String) (level : Nat) (path : List String)
    (d : List (String × HVal)) : List (String × HVal) :=
  if 0 < thr ∧ 0 < level ∧ strContains (pathStr path) lbl = false then
    (aggregate_small_slices d thr (totalOfList d) lbl).1
  else d

/-- The stable descending sort by subtree count of `process_level`
(lines 257-265). -/
def sortDesc (d : List (String × HVal)) : List (String × HVal) :=
  d.mergeSort (fun a b =>
    decide (calculate_total_recursive b.2 ≤ calculate_total_recursive a.2))

/-- The ring radii (lines 196-198): `center_radius = 0.15`,
`ring_width = (0.85 - 0.15) / n_levels`, `radii[i] = 0.15 + i * ring_width`. -/
def radii (n : Nat) (i : Nat) : ℚ := 3/20 + (i : ℚ) * ((17/20 - 3/20) / n)

/-- One wedge appended to `segments` (lines 301-312): its 1-based level,
start and end angle in degrees, inner and outer radius, key, subtree count
and path.  (The colour and the rendered label text are plotting glue and
are not modelled.) -/
structure Segment where
  level : Nat
  startAngle : ℚ
  endAngle : ℚ
  innerRadius : ℚ
  outerRadius : ℚ
  key : String
  value : Nat
  path : List String
deriving DecidableEq

/-- The sibling loop of `process_level` (lines 289-318): each item gets the
wedge `[current_angle, current_angle + angle_size]` with
`angle_size = item_total / total_for_level * parent_angle_size`, the
recursion on its children (passed in as `child`) is appended, and the
current angle advances by the wedge size. -/
def layoutSibs (n : Nat) (level : Nat) (T : Nat) (size : ℚ) (path : List String)
    (child : String → HVal → ℚ → ℚ → List Segment) :
    List (String × HVal) → ℚ → List Segment
  | [], _ => []
  | (k, v) :: rest, cur =>
      Segment.mk (level + 1) cur
          (cur + ((calculate_total_recursive v : ℚ) / (T : ℚ)) * size)
          (radii n level) (radii n (level + 1)) k (calculate_total_recursive v)
          (path ++ [k])
        :: (child k v cur (((calculate_total_recursive v : ℚ) / (T : ℚ)) * size)
            ++ layoutSibs n level T size path child rest
                (cur + ((calculate_total_recursive v : ℚ) / (T : ℚ)) * size))

/-- Models `process_level` (sunburst_script.py lines 233-318): guard `level >=
n_levels`, per-level aggregation, descending sort, then the sibling loop,
recursing into dictionary-valued children while `level + 1 < n_levels`.
The `fuel` argument is the structural recursion depth; it is called with
`fuel = n - level`, which is positive exactly while the `level >= n_levels`
guard does not fire. -/
def process_level (n : Nat) (thr : ℚ) (lbl : String) :
    Nat → List (String × HVal) → Nat → ℚ → ℚ → List String → List Segment
  | 0, _, _, _, _, _ => []
  | Nat.succ fuel, d, level, start, size, path =>
      if n ≤ level then []
      else
        layoutSibs n level (totalOfList (processedData thr lbl level path d))
          size path
          (fun k v cur a =>
            match v with
            | .leaf _ => []
            | .node kids =>
                if level + 1 < n then
                  process_level n thr lbl fuel kids (level + 1) cur a (path ++ [k])
                else [])
          (sortDesc (processedData thr lbl level path d)) start

/-- The level-1 aggregation of `create_sunburst_chart` (lines 207-221):
with a positive threshold the top-level dictionary is aggregated against
the whole total before any layout. -/
def topProcessed (thr : ℚ) (lbl : String) (hierarchy : List (String × HVal)) :
    List (String × HVal) :=
  if 0 < thr then (aggregate_small_slices hierarchy thr (totalOfList hierarchy) lbl).1
  else hierarchy

/-- All segments of the chart: `process_level(processed_hierarchy, 0, 0,
360, None, [])` (line 321). -/
def sunburstSegments (n : Nat) (thr : ℚ) (lbl : String)
    (hierarchy : List (String × HVal)) : List Segment :=
  process_level n thr lbl n (topProcessed thr lbl hierarchy) 0 0 360 []

/-- Checks that a list of segments is angularly consecutive starting at
`a`: each segment starts where the previous one ends. -/
def consecutiveFromB (a : ℚ) : List Segment → Bool
  | [] => true
  | s :: rest => (s.startAngle == a) && consecutiveFromB s.endAngle rest

end Sunburst

/-! ## Lemmas and theorems -/

namespace Sunburst

@[simp] theorem calculate_total_recursive_leaf (n : Nat) :
    calculate_total_recursive (.leaf n) = n := rfl

@[simp] theorem calculate_total_recursive_node (kids : List (String × HVal)) :
    calculate_total_recursive (.node kids) = totalOfList kids := rfl

@[simp] theorem totalOfList_nil : totalOfList [] = 0 := rfl

@[simp] theorem totalOfList_cons (p : String × HVal) (rest : List (String × HVal)) :
    totalOfList (p :: rest) = calculate_total_recursive p.2 + totalOfList rest := rfl

theorem totalOfList_append (l₁ l₂ : List (String × HVal)) :
    totalOfList (l₁ ++ l₂) = totalOfList l₁ + totalOfList l₂ := by
  induction l₁ with
  | nil => simp
  | cons p rest ih => simp [ih, Nat.add_assoc]

theorem totalOfList_filter_partition (p : String × HVal → Bool)
    (d : List (String × HVal)) :
    totalOfList (d.filter p) + totalOfList (d.filter (fun x => ! p x))
      = totalOfList d := by
  induction d with
  | nil => rfl
  | cons a t ih =>
    by_cases h : p a <;> simp [List.filter_cons, h] <;> omega

theorem dictInsert_of_not_mem (m : List (String × HVal)) (k : String) (v : HVal)
    (h : ∀ p ∈ m, p.1 ≠ k) : dictInsert m k v = m ++ [(k, v)] := by
  have hany : m.any (fun p => decide (p.1 = k)) = false := by
    rw [List.any_eq_false]
    intro p hp
    simpa using h p hp
  simp only [dictInsert, hany]
  simp

end Sunburst

/-- C1: the claim says every branch below the percentage threshold is removed
and aggregated into "Other".  False: `aggregate_small_slices` leaves the
level unchanged when only one branch is below the threshold.  Here "B" has
count 5, below 10% of the level total 95 (= 9.5), yet the returned
dictionary is the unchanged input and no "Other" entry exists. -/
theorem C1_counterexample :
    ((Sunburst.calculate_total_recursive (Sunburst.HVal.leaf 5) : ℚ) < 10 / 100 * 95)
    ∧ Sunburst.aggregate_small_slices
        [("A", Sunburst.HVal.leaf 90), ("B", Sunburst.HVal.leaf 5)] 10 95 "Other"
        = ([("A", Sunburst.HVal.leaf 90), ("B", Sunburst.HVal.leaf 5)], [])
    ∧ ((Sunburst.aggregate_small_slices
        [("A", Sunburst.HVal.leaf 90), ("B", Sunburst.HVal.leaf 5)] 10 95 "Other").1.map
          Prod.fst).contains "Other" = false := by
  refine ⟨by norm_num, ?_, ?_⟩ <;>
    (norm_num [Sunburst.aggregate_small_slices, Sunburst.keepSlice, List.filter] <;>
      all_goals decide)

/-- C1 (amended): with a positive threshold, whenever at least two branches
fall below the percentage of the level total and their combined count is
positive, every below-threshold branch is removed from the level and their
combined count becomes a single "Other" entry written by Python dictionary
assignment: it is appended after the kept branches when none of them is
named by the other-label, and otherwise it replaces in place the value of
the kept branch bearing that name; when fewer than two branches are below
the threshold or their combined count is zero, the level is returned
unchanged (in particular a lone below-threshold branch is kept). -/
theorem C1_amended_spec (d : List (String × Sunburst.HVal)) (thr total : ℚ)
    (lbl : String) :
    (0 < thr →
     1 < (d.filter (fun p => ! Sunburst.keepSlice thr total p)).length →
     0 < Sunburst.totalOfList (d.filter (fun p => ! Sunburst.keepSlice thr total p)) →
     Sunburst.aggregate_small_slices d thr total lbl
       = (Sunburst.dictInsert (d.filter (fun p => Sunburst.keepSlice thr total p)) lbl
            (Sunburst.HVal.leaf
              (Sunburst.totalOfList (d.filter (fun p => ! Sunburst.keepSlice thr total p)))),
          (d.filter (fun p => ! Sunburst.keepSlice thr total p)).map Prod.fst))
    ∧ ((∀ p ∈ d.filter (fun p => Sunburst.keepSlice thr total p), p.1 ≠ lbl) →
       Sunburst.dictInsert (d.filter (fun p => Sunburst.keepSlice thr total p)) lbl
           (Sunburst.HVal.leaf
             (Sunburst.totalOfList (d.filter (fun p => ! Sunburst.keepSlice thr total p))))
         = d.filter (fun p => Sunburst.keepSlice thr total p)
             ++ [(lbl, Sunburst.HVal.leaf
                   (Sunburst.totalOfList (d.filter (fun p => ! Sunburst.keepSlice thr total p))))])
    ∧ ((d.filter (fun p => Sunburst.keepSlice thr total p)).any (fun p => p.1 = lbl) = true →
       Sunburst.dictInsert (d.filter (fun p => Sunburst.keepSlice thr total p)) lbl
           (Sunburst.HVal.leaf
             (Sunburst.totalOfList (d.filter (fun p => ! Sunburst.keepSlice thr total p))))
         = (d.filter (fun p => Sunburst.keepSlice thr total p)).map
             (fun p => if p.1 = lbl then
                 (lbl, Sunburst.HVal.leaf
                   (Sunburst.totalOfList (d.filter (fun p => ! Sunburst.keepSlice thr total p))))
               else p))
    ∧ (¬ (1 < (d.filter (fun p => ! Sunburst.keepSlice thr total p)).length
            ∧ 0 < Sunburst.totalOfList (d.filter (fun p => ! Sunburst.keepSlice thr total p))) →
       Sunburst.aggregate_small_slices d thr total lbl = (d, [])) := by
  refine ⟨?_, ?_, ?_, ?_⟩
  · intro hthr hlen hpos
    have h0 : ¬ thr ≤ 0 := not_le.mpr hthr
    have hne : (d.filter (fun p => ! Sunburst.keepSlice thr total p)).isEmpty = false := by
      rw [List.isEmpty_eq_false_iff_exists_mem]
      rcases List.exists_mem_of_length_pos (Nat.lt_of_lt_of_le Nat.zero_lt_one hlen.le) with ⟨x, hx⟩
      exact ⟨x, hx⟩
    simp only [Sunburst.aggregate_small_slices, if_neg h0]
    rw [if_pos ⟨hne, hlen, hpos⟩]
  · intro hlbl
    exact Sunburst.dictInsert_of_not_mem _ _ _ hlbl
  · intro hlbl
    unfold Sunburst.dictInsert
    rw [if_pos hlbl]
  · intro hnot
    by_cases h0 : thr ≤ 0
    · simp only [Sunburst.aggregate_small_slices, if_pos h0]
    · simp only [Sunburst.aggregate_small_slices, if_neg h0]
      rw [if_neg]
      intro hc
      exact hnot ⟨hc.2.1, hc.2.2⟩

/-- Witness for C1: for two small branches "B" and "C" (counts 3 and 2,
each below 10% of 95) next to a kept branch "A", the "Other" entry of count
5 is appended; and when the kept branch is itself named "Other" (the C8
scenario), the dictionary assignment overwrites its value in place. -/
theorem C1_amended_witness :
    Sunburst.aggregate_small_slices
        [("A", Sunburst.HVal.leaf 90), ("B", Sunburst.HVal.leaf 3), ("C", Sunburst.HVal.leaf 2)]
        10 95 "Other"
      = ([("A", Sunburst.HVal.leaf 90), ("Other", Sunburst.HVal.leaf 5)], ["B", "C"])
    ∧ Sunburst.aggregate_small_slices
        [("Other", Sunburst.HVal.leaf 100), ("A", Sunburst.HVal.leaf 1), ("B", Sunburst.HVal.leaf 1)]
        50 102 "Other"
      = ([("Other", Sunburst.HVal.leaf 2)], ["A", "B"]) := by
  constructor
  · have h := (C1_amended_spec
        [("A", Sunburst.HVal.leaf 90), ("B", Sunburst.HVal.leaf 3), ("C", Sunburst.HVal.leaf 2)]
        10 95 "Other").1 (by norm_num)
        (by norm_num [Sunburst.keepSlice, List.filter])
        (by norm_num [Sunburst.keepSlice, List.filter])
    have hfresh := (C1_amended_spec
        [("A", Sunburst.HVal.leaf 90), ("B", Sunburst.HVal.leaf 3), ("C", Sunburst.HVal.leaf 2)]
        10 95 "Other").2.1
        (by norm_num [Sunburst.keepSlice, List.filter]
            all_goals decide)
    rw [h, hfresh]
    norm_num [Sunburst.keepSlice, List.filter]
  · have h := (C1_amended_spec
        [("Other", Sunburst.HVal.leaf 100), ("A", Sunburst.HVal.leaf 1), ("B", Sunburst.HVal.leaf 1)]
        50 102 "Other").1 (by norm_num)
        (by norm_num [Sunburst.keepSlice, List.filter])
        (by norm_num [Sunburst.keepSlice, List.filter])
    have hover := (C1_amended_spec
        [("Other", Sunburst.HVal.leaf 100), ("A", Sunburst.HVal.leaf 1), ("B", Sunburst.HVal.leaf 1)]
        50 102 "Other").2.2.1
        (by norm_num [Sunburst.keepSlice, List.filter])
    rw [h, hover]
    norm_num [Sunburst.keepSlice, List.filter]

/-- C8: the claim says `aggregate_small_slices` preserves the recursive total
for every input mapping.  False: the "Other" entry is written with Python
dictionary assignment, which overwrites an existing kept branch named
"Other".  Here the kept branch "Other" (count 100) is overwritten by the
aggregate of the two small branches (count 2), so the total drops from 102
to 2. -/
theorem C8_counterexample :
    Sunburst.totalOfList
        (Sunburst.aggregate_small_slices
          [("Other", Sunburst.HVal.leaf 100), ("A", Sunburst.HVal.leaf 1), ("B", Sunburst.HVal.leaf 1)]
          50 102 "Other").1 = 2
    ∧ Sunburst.totalOfList
        [("Other", Sunburst.HVal.leaf 100), ("A", Sunburst.HVal.leaf 1), ("B", Sunburst.HVal.leaf 1)]
        = 102
    ∧ (2 : Nat) ≠ 102 := by
  refine ⟨?_, by norm_num, by norm_num⟩
  norm_num [Sunburst.aggregate_small_slices, Sunburst.keepSlice, List.filter,
    Sunburst.dictInsert, Sunburst.totalOfList]

/-- C8 (amended): `aggregate_small_slices` preserves the total count whenever
no branch at or above the threshold is named by the other-label (in
particular whenever the other-label is fresh): the sum of recursively
computed counts over the returned mapping, including the "Other" entry when
one is created, equals the sum over the input mapping. -/
theorem C8_amended_spec (d : List (String × Sunburst.HVal)) (thr total : ℚ)
    (lbl : String)
    (h : ∀ p ∈ d.filter (fun p => Sunburst.keepSlice thr total p), p.1 ≠ lbl) :
    Sunburst.totalOfList (Sunburst.aggregate_small_slices d thr total lbl).1
      = Sunburst.totalOfList d := by
  by_cases h0 : thr ≤ 0
  · simp only [Sunburst.aggregate_small_slices, if_pos h0]
  · simp only [Sunburst.aggregate_small_slices, if_neg h0]
    by_cases hc : ((d.filter (fun p => ! Sunburst.keepSlice thr total p)).isEmpty = false
        ∧ 1 < (d.filter (fun p => ! Sunburst.keepSlice thr total p)).length
        ∧ 0 < Sunburst.totalOfList (d.filter (fun p => ! Sunburst.keepSlice thr total p)))
    · rw [if_pos hc, Sunburst.dictInsert_of_not_mem _ _ _ h,
        Sunburst.totalOfList_append]
      simpa using Sunburst.totalOfList_filter_partition
        (fun p => Sunburst.keepSlice thr total p) d
    · rw [if_neg hc]

/-- Witness for C8: total preservation at a concrete input where aggregation
fires (kept branch "A" with count 5, small branches "B", "C" merged into
"Other"). -/
theorem C8_amended_witness :
    Sunburst.totalOfList
        (Sunburst.aggregate_small_slices
          [("A", Sunburst.HVal.leaf 5), ("B", Sunburst.HVal.leaf 1), ("C", Sunburst.HVal.leaf 1)]
          50 7 "Other").1
      = Sunburst.totalOfList
          [("A", Sunburst.HVal.leaf 5), ("B", Sunburst.HVal.leaf 1), ("C", Sunburst.HVal.leaf 1)] :=
  C8_amended_spec
    [("A", Sunburst.HVal.leaf 5), ("B", Sunburst.HVal.leaf 1), ("C", Sunburst.HVal.leaf 1)]
    50 7 "Other" (by
      norm_num [Sunburst.keepSlice, List.filter]
      all_goals decide)


namespace Merge

theorem mem_of_mem_dedupByKey {ρ : Type} (l : List (String × ρ)) (p : String × ρ)
    (h : p ∈ dedupByKey l) : p ∈ l := by
  induction l using dedupByKey.induct with
  | case1 => simp [dedupByKey] at h
  | case2 r rest ih =>
    rw [dedupByKey] at h
    rcases List.mem_cons.mp h with h | h
    · simp [h]
    · exact List.mem_cons_of_mem _ (List.mem_of_mem_filter (ih h))

theorem dedupByKey_keys_nodup {ρ : Type} (l : List (String × ρ)) :
    ((dedupByKey l).map Prod.fst).Nodup := by
  induction l using dedupByKey.induct with
  | case1 => simp [dedupByKey]
  | case2 r rest ih =>
    rw [dedupByKey]
    refine List.nodup_cons.mpr ⟨?_, ih⟩
    intro hmem
    rcases List.mem_map.mp hmem with ⟨p, hp, hkey⟩
    have := (List.mem_filter.mp (mem_of_mem_dedupByKey _ _ hp)).2
    simp only [decide_eq_true_eq] at this
    exact this (hkey.trans rfl)

theorem find?_filter_of_imp {α : Type} (l : List α) (p q : α → Bool)
    (h : ∀ x, p x = true → q x = true) :
    (l.filter q).find? p = l.find? p := by
  induction l with
  | nil => rfl
  | cons a t ih =>
    by_cases hq : q a
    · by_cases hp : p a <;> simp [List.filter_cons, hq, List.find?_cons, hp, ih]
    · have hp : p a = false := by
        cases hpa : p a
        · rfl
        · exact absurd (h a hpa) (by simpa using hq)
      simp [List.filter_cons, hq, List.find?_cons, hp, ih]

theorem dedupByKey_find? {ρ : Type} (l : List (String × ρ)) (p : String × ρ)
    (h : p ∈ dedupByKey l) : l.find? (fun q => q.1 = p.1) = some p := by
  induction l using dedupByKey.induct with
  | case1 => simp [dedupByKey] at h
  | case2 r rest ih =>
    rw [dedupByKey] at h
    rcases List.mem_cons.mp h with h | h
    · subst h
      simp [List.find?_cons]
    · have hne : p.1 ≠ r.1 := by
        have := (List.mem_filter.mp (mem_of_mem_dedupByKey _ _ h)).2
        simpa using this
      rw [List.find?_cons]
      rw [show decide (r.1 = p.1) = false from decide_eq_false fun hc => hne hc.symm]
      have himp : ∀ x : String × ρ,
          (fun q : String × ρ => decide (q.1 = p.1)) x = true →
          (fun q : String × ρ => decide (q.1 ≠ r.1)) x = true := by
        intro x hx
        simp only [decide_eq_true_eq] at hx ⊢
        rw [hx]
        exact hne
      rw [← find?_filter_of_imp rest _ _ himp]
      exact ih h

theorem dedupByKey_keys {ρ : Type} (l : List (String × ρ)) (k : String)
    (h : k ∈ l.map Prod.fst) : k ∈ (dedupByKey l).map Prod.fst := by
  induction l using dedupByKey.induct with
  | case1 => simp at h
  | case2 r rest ih =>
    rw [dedupByKey]
    by_cases hk : k = r.1
    · simp [hk]
    · rcases List.mem_map.mp h with ⟨p, hp, hkey⟩
      rcases List.mem_cons.mp hp with hp' | hp'
      · subst hp'
        exact absurd hkey.symm hk
      · have hmem : p ∈ rest.filter (fun q => q.1 ≠ r.1) := by
          refine List.mem_filter.mpr ⟨hp', ?_⟩
          simp only [decide_eq_true_eq]
          rw [hkey]
          exact hk
        have hkm : k ∈ ((rest.filter (fun q => q.1 ≠ r.1)).map Prod.fst) :=
          List.mem_map.mpr ⟨p, hmem, hkey⟩
        rw [List.map_cons]
        exact List.mem_cons_of_mem _ (ih hkm)

theorem keys_mergeStep_left {ρ : Type} (acc : List (String × List (Option ρ)))
    (n : Nat) (t : List (String × ρ)) (k : String) (h : k ∈ acc.map Prod.fst) :
    k ∈ (mergeStep acc n t).map Prod.fst := by
  simp only [mergeStep, List.map_append, List.map_map]
  refine List.mem_append.mpr (Or.inl ?_)
  simpa [Function.comp] using h

theorem keys_mergeStep_right {ρ : Type} (acc : List (String × List (Option ρ)))
    (n : Nat) (t : List (String × ρ)) (k : String) (h : k ∈ t.map Prod.fst) :
    k ∈ (mergeStep acc n t).map Prod.fst := by
  by_cases hacc : k ∈ acc.map Prod.fst
  · exact keys_mergeStep_left acc n t k hacc
  · simp only [mergeStep, List.map_append, List.map_map]
    refine List.mem_append.mpr (Or.inr ?_)
    rcases List.mem_map.mp h with ⟨p, hp, hkey⟩
    have hkeep : (fun p : String × ρ => ! acc.any (fun a => a.1 = p.1)) p = true := by
      simp only [Bool.not_eq_true']
      rw [List.any_eq_false]
      intro a ha
      simp only [decide_eq_true_eq]
      intro hc
      exact hacc (List.mem_map.mpr ⟨a, ha, hkey ▸ hc⟩)
    refine List.mem_map.mpr ⟨p, List.mem_filter.mpr ⟨hp, hkeep⟩, ?_⟩
    simpa using hkey

theorem mergeAux_keys_acc {ρ : Type} (ts : List (List (String × ρ))) :
    ∀ (acc : List (String × List (Option ρ))) (n : Nat) (k : String),
      k ∈ acc.map Prod.fst → k ∈ (mergeAux acc n ts).map Prod.fst := by
  induction ts with
  | nil => intro acc n k h; simpa [mergeAux] using h
  | cons t ts ih =>
    intro acc n k h
    rw [mergeAux]
    exact ih _ _ _ (keys_mergeStep_left acc n t k h)

theorem mergeAux_keys_file {ρ : Type} (ts : List (List (String × ρ)))
    (f : List (String × ρ)) (hf : f ∈ ts) :
    ∀ (acc : List (String × List (Option ρ))) (n : Nat) (k : String),
      k ∈ f.map Prod.fst → k ∈ (mergeAux acc n ts).map Prod.fst := by
  induction ts with
  | nil => simp at hf
  | cons t ts ih =>
    intro acc n k h
    rw [mergeAux]
    rcases List.mem_cons.mp hf with hft | hft
    · subst hft
      exact mergeAux_keys_acc ts _ _ _ (keys_mergeStep_right acc n f k h)
    · exact ih hft _ _ _ h

theorem mergeAll_keys {ρ : Type} (files : List (List (String × ρ)))
    (f : List (String × ρ)) (hf : f ∈ files) (k : String)
    (hk : k ∈ f.map Prod.fst) : k ∈ (mergeAll files).map Prod.fst := by
  cases files with
  | nil => simp at hf
  | cons t ts =>
    rw [mergeAll]
    rcases List.mem_cons.mp hf with hft | hft
    · subst hft
      refine mergeAux_keys_acc ts _ _ _ ?_
      simpa [List.map_map, Function.comp] using hk
    · exact mergeAux_keys_file ts f hft _ _ _ hk

end Merge

/-- C10: in both TSV mergers every input table is deduplicated on the Sample
ID column before any join: the merge pipelines operate on `dedupByKey` of
each file, the deduplicated table has pairwise-distinct Sample IDs (at most
one row per key), and each surviving row is the first occurrence of its key
in the original file. -/
theorem C10_spec {ρ : Type} (files : List (List (String × ρ)))
    (f : List (String × ρ)) (hf : f ∈ files) :
    Merge.merge_tsv_files files = Merge.mergeAll (files.map Merge.dedupByKey)
    ∧ Merge.merge_bold_outputs files = Merge.mergeAll (files.map Merge.dedupByKey)
    ∧ ((Merge.dedupByKey f).map Prod.fst).Nodup
    ∧ ∀ p ∈ Merge.dedupByKey f, f.find? (fun q => q.1 = p.1) = some p :=
  ⟨rfl, rfl, Merge.dedupByKey_keys_nodup f, fun p hp => Merge.dedupByKey_find? f p hp⟩

/-- Witness for C10 at a concrete file with a repeated Sample ID. -/
theorem C10_witness :
    Merge.merge_tsv_files [[("S1", 1), ("S1", 2), ("S2", 3)]]
        = Merge.mergeAll ([[("S1", 1), ("S1", 2), ("S2", 3)]].map Merge.dedupByKey)
    ∧ ((Merge.dedupByKey [("S1", 1), ("S1", 2), ("S2", 3)]).map Prod.fst).Nodup :=
  ⟨(C10_spec [[("S1", 1), ("S1", 2), ("S2", 3)]] [("S1", 1), ("S1", 2), ("S2", 3)]
      (by simp)).1,
   (C10_spec [[("S1", 1), ("S1", 2), ("S2", 3)]] [("S1", 1), ("S1", 2), ("S2", 3)]
      (by simp)).2.2.1⟩

/-- C3: in both TSV mergers, every Sample ID occurring in any successfully
processed input file occurs in the merged output: the sequential outer
joins on the Sample ID key drop no key from either side. -/
theorem C3_spec {ρ : Type} (files : List (List (String × ρ)))
    (f : List (String × ρ)) (k : String) (hf : f ∈ files)
    (hk : k ∈ f.map Prod.fst) :
    k ∈ (Merge.merge_tsv_files files).map Prod.fst
    ∧ k ∈ (Merge.merge_bold_outputs files).map Prod.fst := by
  have h : k ∈ (Merge.mergeAll (files.map Merge.dedupByKey)).map Prod.fst :=
    Merge.mergeAll_keys (files.map Merge.dedupByKey) (Merge.dedupByKey f)
      (List.mem_map_of_mem _ hf) k (Merge.dedupByKey_keys f k hk)
  exact ⟨h, h⟩

/-- Witness for C3: the key "B", contributed by the second of two concrete
files, appears in both merged outputs. -/
theorem C3_witness :
    "B" ∈ (Merge.merge_tsv_files [[("A", 1)], [("B", 2)]]).map Prod.fst
    ∧ "B" ∈ (Merge.merge_bold_outputs [[("A", 1)], [("B", 2)]]).map Prod.fst :=
  C3_spec [[("A", 1)], [("B", 2)]] [("B", 2)] "B" (by simp) (by simp)

namespace BoldMerger

theorem cellOf_cons (k : String) (w : Option String)
    (t : List (String × Option String)) (c : String) :
    cellOf ((k, w) :: t) c = if k = c then w else cellOf t c := by
  by_cases h : k = c <;> simp [cellOf, List.find?_cons, h]

theorem cellOf_setCell_self (c : String) (v : Option String) :
    ∀ row, cellOf (setCell row c v) c = v := by
  intro row
  induction row with
  | nil => simp [setCell, cellOf, List.find?_cons]
  | cons p t ih =>
    obtain ⟨k, w⟩ := p
    by_cases hk : k = c
    · subst hk
      have hany : ((k, w) :: t).any (fun p => p.1 = k) = true := by
        simp [List.any_cons]
      rw [setCell, if_pos hany, List.map_cons]
      simp [cellOf_cons]
    · by_cases ht : t.any (fun p => p.1 = c)
      · have hany : ((k, w) :: t).any (fun p => p.1 = c) = true := by
          rw [List.any_cons]
          exact Bool.or_eq_true_iff.mpr (Or.inr ht)
        rw [setCell, if_pos hany, List.map_cons]
        rw [show (if (k, w).1 = c then (c, v) else (k, w)) = (k, w) from by simp [hk]]
        rw [cellOf_cons, if_neg hk]
        have h2 := ih
        rw [setCell, if_pos ht] at h2
        exact h2
      · have hanyc : ((k, w) :: t).any (fun p => p.1 = c) = false := by
          rw [List.any_cons, Bool.or_eq_false_iff]
          exact ⟨decide_eq_false hk, Bool.eq_false_iff.mpr ht⟩
        rw [setCell, if_neg (by simp [hanyc]), List.cons_append, cellOf_cons, if_neg hk]
        have h2 := ih
        rw [setCell, if_neg ht] at h2
        exact h2

theorem cellOf_filter_ne (row : List (String × Option String)) (b dupc : String)
    (h : b ≠ dupc) :
    cellOf (row.filter (fun p => p.1 ≠ dupc)) b = cellOf row b := by
  unfold cellOf
  rw [Merge.find?_filter_of_imp]
  intro x hx
  simp only [decide_eq_true_eq] at hx ⊢
  rw [hx]
  exact h

theorem takeUntilSeq_length_lt (pat : List Char) (hp : pat ≠ []) :
    ∀ l : List Char, containsSeq pat l = true →
      (takeUntilSeq pat l).length < l.length := by
  intro l
  induction l with
  | nil =>
    intro h
    cases pat with
    | nil => exact absurd rfl hp
    | cons a as => simp [containsSeq, List.isPrefixOf] at h
  | cons c rest ih =>
    intro h
    rw [takeUntilSeq]
    by_cases hpre : pat.isPrefixOf (c :: rest)
    · rw [if_pos hpre]
      simp
    · rw [if_neg hpre]
      have hcont : containsSeq pat rest = true := by
        unfold containsSeq at h ⊢
        rw [List.tails_cons, List.any_cons] at h
        rcases Bool.or_eq_true_iff.mp h with h' | h'
        · exact absurd h' (by simpa using hpre)
        · exact h'
      simpa using Nat.succ_lt_succ (ih hcont)

theorem baseOf_ne_self (c : String) (h : isDupCol c = true) : baseOf c ≠ c := by
  intro he
  have hlen := takeUntilSeq_length_lt dupMarker (by decide) c.data h
  have hdata : takeUntilSeq dupMarker c.data = c.data := congrArg String.data he
  rw [hdata] at hlen
  exact Nat.lt_irrefl _ hlen

theorem contains_removeAll_self (l : List String) (d : String) :
    (l.removeAll [d]).contains d = false := by
  rw [List.contains_eq_any_beq, List.any_eq_false]
  intro x hx
  have hx2 : x ∈ l ∧ ¬ x = d := by simpa [List.removeAll] using hx
  simp only [beq_iff_eq]
  exact fun hc => hx2.2 hc.symm

end BoldMerger

/-- C2: when the same column occurs in two merged files, the pandas merge
keeps the earlier file's column under the original name and suffixes the
later file's copy with `_DUPLICATE_FROM_<file>`.  After resolution, for
every row the resolved column holds the earlier file's value when that value
is non-empty (missing cells reading as empty), and otherwise the later
file's value; the suffixed duplicate column is dropped from the columns and
from every row. -/
theorem C2_spec (df : BoldMerger.DataFrame) (d : String)
    (hd : df.cols.filter (fun c => BoldMerger.isDupCol c) = [d])
    (hb : BoldMerger.baseOf d ∈ df.cols) :
    (BoldMerger.resolveAllDups df).cols = df.cols.removeAll [d]
    ∧ ((BoldMerger.resolveAllDups df).cols.contains d) = false
    ∧ (BoldMerger.resolveAllDups df).rows
        = df.rows.map (fun row => BoldMerger.resolveRow row (BoldMerger.baseOf d) d)
    ∧ ∀ row ∈ df.rows,
        BoldMerger.cellOf (BoldMerger.resolveRow row (BoldMerger.baseOf d) d)
            (BoldMerger.baseOf d)
          = some (if BoldMerger.fillna (BoldMerger.cellOf row (BoldMerger.baseOf d)) ≠ ""
                  then BoldMerger.fillna (BoldMerger.cellOf row (BoldMerger.baseOf d))
                  else BoldMerger.fillna (BoldMerger.cellOf row d)) := by
  have hdup : BoldMerger.isDupCol d = true := by
    have hmem : d ∈ df.cols.filter (fun c => BoldMerger.isDupCol c) := by
      rw [hd]
      simp
    exact (List.mem_filter.mp hmem).2
  have hbne : BoldMerger.baseOf d ≠ d := BoldMerger.baseOf_ne_self d hdup
  have hcontains : df.cols.contains (BoldMerger.baseOf d) = true := by
    rw [List.contains_eq_any_beq, List.any_eq_true]
    exact ⟨BoldMerger.baseOf d, hb, by simp⟩
  have hres : BoldMerger.resolveAllDups df
      = { cols := df.cols.removeAll [d],
          rows := df.rows.map (fun row =>
            BoldMerger.resolveRow row (BoldMerger.baseOf d) d) } := by
    unfold BoldMerger.resolveAllDups
    rw [hd, List.foldl_cons, List.foldl_nil]
    unfold BoldMerger.resolveDupCol
    rw [if_pos (by simpa using hcontains)]
  refine ⟨by rw [hres], by rw [hres]; exact BoldMerger.contains_removeAll_self _ _,
    by rw [hres], ?_⟩
  intro row hrow
  unfold BoldMerger.resolveRow
  rw [BoldMerger.cellOf_filter_ne _ _ _ hbne, BoldMerger.cellOf_setCell_self]
  rfl

/-- Witness for C2 at a concrete merged frame: the base "Country" column of
the single row is empty, so the resolved value is the duplicate "France",
and the suffixed column disappears. -/
theorem C2_witness :
    (BoldMerger.resolveAllDups
        ⟨["Sample ID", "Country", "Country_DUPLICATE_FROM_b.tsv"],
         [[("Sample ID", some "S1"), ("Country", some ""),
           ("Country_DUPLICATE_FROM_b.tsv", some "France")]]⟩).cols
      = ["Sample ID", "Country", "Country_DUPLICATE_FROM_b.tsv"].removeAll
          ["Country_DUPLICATE_FROM_b.tsv"]
    ∧ ((BoldMerger.resolveAllDups
        ⟨["Sample ID", "Country", "Country_DUPLICATE_FROM_b.tsv"],
         [[("Sample ID", some "S1"), ("Country", some ""),
           ("Country_DUPLICATE_FROM_b.tsv", some "France")]]⟩).cols.contains
          "Country_DUPLICATE_FROM_b.tsv") = false :=
  ⟨(C2_spec
      ⟨["Sample ID", "Country", "Country_DUPLICATE_FROM_b.tsv"],
       [[("Sample ID", some "S1"), ("Country", some ""),
         ("Country_DUPLICATE_FROM_b.tsv", some "France")]]⟩
      "Country_DUPLICATE_FROM_b.tsv" (by decide) (by decide)).1,
   (C2_spec
      ⟨["Sample ID", "Country", "Country_DUPLICATE_FROM_b.tsv"],
       [[("Sample ID", some "S1"), ("Country", some ""),
         ("Country_DUPLICATE_FROM_b.tsv", some "France")]]⟩
      "Country_DUPLICATE_FROM_b.tsv" (by decide) (by decide)).2.1⟩

namespace BoldMerger

theorem countChar_dropWhile (a : Char) (q : Char → Bool)
    (h : ∀ c, q c = true → c ≠ a) (l : List Char) :
    countChar a (l.dropWhile q) = countChar a l := by
  induction l with
  | nil => rfl
  | cons c rest ih =>
    by_cases hq : q c
    · rw [List.dropWhile_cons, if_pos hq, ih]
      simp [countChar, List.filter_cons, decide_eq_false (h c hq)]
    · rw [List.dropWhile_cons, if_neg hq]

theorem countChar_reverse (a : Char) (l : List Char) :
    countChar a l.reverse = countChar a l := by
  simp [countChar, List.filter_reverse]

theorem countChar_trimChars (a : Char) (ha : a.isWhitespace = false)
    (l : List Char) : countChar a (trimChars l) = countChar a l := by
  have h : ∀ c : Char, c.isWhitespace = true → c ≠ a := by
    intro c hc he
    rw [he, ha] at hc
    exact Bool.false_ne_true hc
  unfold trimChars
  rw [countChar_reverse, countChar_dropWhile a _ h, countChar_reverse,
    countChar_dropWhile a _ h]

end BoldMerger

/-- C9: the first line of an input file is classified as a machine-readable
UUID row if and only if at least one of its tab-separated cells, after
stripping whitespace, has length exactly 36 and contains exactly four
hyphen characters; otherwise no UUID row is recorded.  (The code counts
hyphens on the unstripped cell, but stripping removes only whitespace and
hence no hyphens, so the two counts agree.) -/
theorem C9_spec (line : List Char) :
    (BoldMerger.classifyFirstLine line).isSome = true
      ↔ ∃ p ∈ BoldMerger.splitTab (BoldMerger.trimChars line),
          (BoldMerger.trimChars p).length = 36
          ∧ BoldMerger.countChar '-' (BoldMerger.trimChars p) = 4 := by
  have hdash : ('-').isWhitespace = false := by decide
  unfold BoldMerger.classifyFirstLine
  by_cases hc : 0 < BoldMerger.uuid_count (BoldMerger.splitTab (BoldMerger.trimChars line))
  · simp only [if_pos hc, Option.isSome_some, true_iff]
    unfold BoldMerger.uuid_count at hc
    rw [← List.countP_eq_length_filter] at hc
    rcases List.countP_pos_iff.mp hc with ⟨p, hp, hcell⟩
    unfold BoldMerger.isUuidCell at hcell
    simp only [Bool.and_eq_true, beq_iff_eq, Bool.not_eq_true'] at hcell
    refine ⟨p, hp, hcell.1.2, ?_⟩
    rw [BoldMerger.countChar_trimChars _ hdash]
    exact hcell.2
  · simp only [if_neg hc, Option.isSome_none, Bool.false_eq_true, false_iff]
    rintro ⟨p, hp, h36, h4⟩
    apply hc
    unfold BoldMerger.uuid_count
    rw [← List.countP_eq_length_filter]
    refine List.countP_pos_iff.mpr ⟨p, hp, ?_⟩
    unfold BoldMerger.isUuidCell
    have hne : (BoldMerger.trimChars p).isEmpty = false := by
      cases htp : BoldMerger.trimChars p with
      | nil => rw [htp] at h36; simp at h36
      | cons a as => simp
    have h4p : BoldMerger.countChar '-' p = 4 := by
      rw [← BoldMerger.countChar_trimChars '-' hdash]
      exact h4
    simp [hne, h36, h4p]

namespace Merge

theorem head?_filter {α : Type} (p : α → Bool) (l : List α) :
    (l.filter p).head? = l.find? p := by
  induction l with
  | nil => rfl
  | cons a t ih => by_cases h : p a <;> simp [List.filter_cons, List.find?_cons, h, ih]

end Merge

namespace ExtractTax

theorem matchStep_eq (tax : List TaxRow) (lab : List LabRow) (fmt1 : Bool)
    (acc : List OutRow) (r : MergedRow) :
    matchStep tax lab fmt1 acc r = acc ++ (recordFor tax lab fmt1 r).toList := by
  cases h : firstTaxMatch tax r.sampleId (plate_well_of fmt1 r) <;>
    simp [matchStep, recordFor, h]

theorem foldl_matchStep (tax : List TaxRow) (lab : List LabRow) (fmt1 : Bool) :
    ∀ (l : List MergedRow) (acc : List OutRow),
      l.foldl (matchStep tax lab fmt1) acc
        = acc ++ l.filterMap (recordFor tax lab fmt1) := by
  intro l
  induction l with
  | nil => intro acc; simp
  | cons r t ih =>
    intro acc
    rw [List.foldl_cons, ih, matchStep_eq]
    cases h : recordFor tax lab fmt1 r <;> simp [List.filterMap_cons, h]

theorem firstTaxMatch_isSome (tax : List TaxRow) (sid pw : Option String) :
    (firstTaxMatch tax sid pw).isSome = true
      ↔ ∃ t ∈ tax, optEq t.sampleId sid = true ∨ optEq t.sampleId pw = true := by
  unfold firstTaxMatch
  cases h1 : tax.filter (fun t => optEq t.sampleId sid) with
  | cons t ts =>
    simp only [Option.isSome_some, true_iff]
    have ht : t ∈ tax.filter (fun t => optEq t.sampleId sid) := by
      rw [h1]
      simp
    rcases List.mem_filter.mp ht with ⟨htax, hpred⟩
    exact ⟨t, htax, Or.inl hpred⟩
  | nil =>
    constructor
    · intro hs
      cases h2 : tax.filter (fun t => optEq t.sampleId pw) with
      | nil => rw [h2] at hs; simp at hs
      | cons u us =>
        have hu : u ∈ tax.filter (fun t => optEq t.sampleId pw) := by
          rw [h2]
          simp
        rcases List.mem_filter.mp hu with ⟨htax, hpred⟩
        exact ⟨u, htax, Or.inr hpred⟩
    · rintro ⟨t, htax, hor⟩
      rcases hor with hsid | hpw
      · exfalso
        have hmem : t ∈ tax.filter (fun t => optEq t.sampleId sid) :=
          List.mem_filter.mpr ⟨htax, hsid⟩
        rw [h1] at hmem
        simp at hmem
      · have hmem : t ∈ tax.filter (fun t => optEq t.sampleId pw) :=
          List.mem_filter.mpr ⟨htax, hpw⟩
        cases h2 : tax.filter (fun t => optEq t.sampleId pw) with
        | nil => rw [h2] at hmem; simp at hmem
        | cons u us => simp [h2]

end ExtractTax

/-- C4: for every merged_custom_fields row whose plate identifier is among
the requested plate IDs, `match_records` emits a record if and only if some
taxonomy row's Sample ID equals the row's SampleID or, failing that, its
plate-well identifier; the record's Process ID equals the Process ID of the
first lab row matching the taxonomy row's Sample ID, or the empty string
when no lab row matches; and Process ID, Plate_Well, Sample ID are the
first three output columns. -/
theorem C4_spec (hasCol : Bool) (merged : List ExtractTax.MergedRow)
    (tax : List ExtractTax.TaxRow) (lab : List ExtractTax.LabRow)
    (targets : List String) (taxCols : List String) :
    ExtractTax.match_records hasCol merged tax lab targets
      = (ExtractTax.targetRows (ExtractTax.fmt1_of hasCol merged) merged
          targets).filterMap
          (ExtractTax.recordFor tax lab (ExtractTax.fmt1_of hasCol merged))
    ∧ (∀ r ∈ ExtractTax.targetRows (ExtractTax.fmt1_of hasCol merged) merged targets,
        ((ExtractTax.recordFor tax lab (ExtractTax.fmt1_of hasCol merged) r).isSome = true
          ↔ ∃ t ∈ tax, ExtractTax.optEq t.sampleId r.sampleId = true
              ∨ ExtractTax.optEq t.sampleId
                  (ExtractTax.plate_well_of (ExtractTax.fmt1_of hasCol merged) r) = true))
    ∧ (∀ (r : ExtractTax.MergedRow) (t : ExtractTax.TaxRow),
        ExtractTax.firstTaxMatch tax r.sampleId
            (ExtractTax.plate_well_of (ExtractTax.fmt1_of hasCol merged) r) = some t →
        ExtractTax.recordFor tax lab (ExtractTax.fmt1_of hasCol merged) r
          = some (ExtractTax.OutRow.mk
              (match lab.find? (fun l => ExtractTax.optEq l.sampleId t.sampleId) with
               | some l => l.processId
               | none => some "")
              (ExtractTax.plate_well_of (ExtractTax.fmt1_of hasCol merged) r)
              t.sampleId t.fields))
    ∧ (ExtractTax.outputColumns taxCols).take 3
        = ["Process ID", "Plate_Well", "Sample ID"] := by
  refine ⟨?_, ?_, ?_, rfl⟩
  · unfold ExtractTax.match_records
    simpa using ExtractTax.foldl_matchStep tax lab (ExtractTax.fmt1_of hasCol merged)
      (ExtractTax.targetRows (ExtractTax.fmt1_of hasCol merged) merged targets) []
  · intro r _
    have hmap : ∀ (g : ExtractTax.TaxRow → ExtractTax.OutRow)
        (o : Option ExtractTax.TaxRow), (Option.map g o).isSome = o.isSome := by
      intro g o
      cases o <;> rfl
    rw [ExtractTax.recordFor, hmap]
    exact ExtractTax.firstTaxMatch_isSome tax r.sampleId
      (ExtractTax.plate_well_of (ExtractTax.fmt1_of hasCol merged) r)
  · intro r t h
    rw [ExtractTax.recordFor, h, Option.map_some',
      Merge.head?_filter (fun l => ExtractTax.optEq l.sampleId t.sampleId) lab]

/-- Witness for C4 at a one-row example in plate-ID format: the target row
matches the taxonomy row on SampleID and the emitted record carries the lab
row's Process ID. -/
theorem C4_witness :
    ExtractTax.match_records true
        [ExtractTax.MergedRow.mk (some "BGE_00001_A1") (some "BGE_00001") (some "A1")]
        [ExtractTax.TaxRow.mk (some "BGE_00001_A1") [("Phylum", some "Chordata")]]
        [ExtractTax.LabRow.mk (some "BGE_00001_A1") (some "PROC1")]
        ["BGE_00001"]
      = (ExtractTax.targetRows
            (ExtractTax.fmt1_of true
              [ExtractTax.MergedRow.mk (some "BGE_00001_A1") (some "BGE_00001") (some "A1")])
            [ExtractTax.MergedRow.mk (some "BGE_00001_A1") (some "BGE_00001") (some "A1")]
            ["BGE_00001"]).filterMap
          (ExtractTax.recordFor
            [ExtractTax.TaxRow.mk (some "BGE_00001_A1") [("Phylum", some "Chordata")]]
            [ExtractTax.LabRow.mk (some "BGE_00001_A1") (some "PROC1")]
            (ExtractTax.fmt1_of true
              [ExtractTax.MergedRow.mk (some "BGE_00001_A1") (some "BGE_00001") (some "A1")]))
    ∧ (ExtractTax.recordFor
        [ExtractTax.TaxRow.mk (some "BGE_00001_A1") [("Phylum", some "Chordata")]]
        [ExtractTax.LabRow.mk (some "BGE_00001_A1") (some "PROC1")]
        (ExtractTax.fmt1_of true
          [ExtractTax.MergedRow.mk (some "BGE_00001_A1") (some "BGE_00001") (some "A1")])
        (ExtractTax.MergedRow.mk (some "BGE_00001_A1") (some "BGE_00001") (some "A1"))).isSome
      = true :=
  ⟨(C4_spec true
      [ExtractTax.MergedRow.mk (some "BGE_00001_A1") (some "BGE_00001") (some "A1")]
      [ExtractTax.TaxRow.mk (some "BGE_00001_A1") [("Phylum", some "Chordata")]]
      [ExtractTax.LabRow.mk (some "BGE_00001_A1") (some "PROC1")]
      ["BGE_00001"] []).1,
   ((C4_spec true
      [ExtractTax.MergedRow.mk (some "BGE_00001_A1") (some "BGE_00001") (some "A1")]
      [ExtractTax.TaxRow.mk (some "BGE_00001_A1") [("Phylum", some "Chordata")]]
      [ExtractTax.LabRow.mk (some "BGE_00001_A1") (some "PROC1")]
      ["BGE_00001"] []).2.1
      (ExtractTax.MergedRow.mk (some "BGE_00001_A1") (some "BGE_00001") (some "A1"))
      (by decide)).mpr
    ⟨ExtractTax.TaxRow.mk (some "BGE_00001_A1") [("Phylum", some "Chordata")],
     by decide, Or.inl (by decide)⟩⟩

/-- C6: in unique-count mode the computed count for each country equals the
number of distinct (present) values of the count column among that
country's rows; and on a CSV with two rows for country X and one for Y the
counts are {X:2, Y:1} when the two X values differ, and {X:1, Y:1} when
they coincide. -/
theorem C6_spec (rows : List Mapper.MapRow) (c : String)
    (X Y z1 z2 z3 : String) (hXY : X ≠ Y) :
    Mapper.uniqueCountFor rows c
      = ((rows.filter (fun r => r.country = some c)).filterMap
          (fun r => r.countVal)).toFinset.card
    ∧ (z1 ≠ z2 →
        Mapper.uniqueCountFor
            [Mapper.MapRow.mk (some X) (some z1), Mapper.MapRow.mk (some X) (some z2),
             Mapper.MapRow.mk (some Y) (some z3)] X = 2
        ∧ Mapper.uniqueCountFor
            [Mapper.MapRow.mk (some X) (some z1), Mapper.MapRow.mk (some X) (some z2),
             Mapper.MapRow.mk (some Y) (some z3)] Y = 1)
    ∧ (z1 = z2 →
        Mapper.uniqueCountFor
            [Mapper.MapRow.mk (some X) (some z1), Mapper.MapRow.mk (some X) (some z2),
             Mapper.MapRow.mk (some Y) (some z3)] X = 1
        ∧ Mapper.uniqueCountFor
            [Mapper.MapRow.mk (some X) (some z1), Mapper.MapRow.mk (some X) (some z2),
             Mapper.MapRow.mk (some Y) (some z3)] Y = 1) := by
  have hYX : Y ≠ X := Ne.symm hXY
  have hXlist :
      (((Mapper.dropNaCountry
          [Mapper.MapRow.mk (some X) (some z1), Mapper.MapRow.mk (some X) (some z2),
           Mapper.MapRow.mk (some Y) (some z3)]).filter
            (fun r => r.country = some X)).filterMap (fun r => r.countVal))
        = [z1, z2] := by
    simp [Mapper.dropNaCountry, List.filter_cons, List.filterMap_cons, hYX]
  have hYlist :
      (((Mapper.dropNaCountry
          [Mapper.MapRow.mk (some X) (some z1), Mapper.MapRow.mk (some X) (some z2),
           Mapper.MapRow.mk (some Y) (some z3)]).filter
            (fun r => r.country = some Y)).filterMap (fun r => r.countVal))
        = [z3] := by
    simp [Mapper.dropNaCountry, List.filter_cons, List.filterMap_cons, hXY]
  refine ⟨?_, ?_, ?_⟩
  · unfold Mapper.uniqueCountFor Mapper.dropNaCountry
    rw [List.card_toFinset, List.filter_filter]
    have hcongr :
        List.filter (fun a : Mapper.MapRow =>
            decide (a.country = some c) && a.country.isSome) rows
          = List.filter (fun r : Mapper.MapRow => decide (r.country = some c)) rows := by
      apply List.filter_congr
      intro r _
      cases hr : r.country <;> simp [hr]
    rw [hcongr]
  · intro h12
    constructor
    · unfold Mapper.uniqueCountFor
      rw [hXlist, List.dedup_cons_of_not_mem (by simp [h12]),
        List.dedup_cons_of_not_mem (by simp), List.dedup_nil]
      rfl
    · unfold Mapper.uniqueCountFor
      rw [hYlist, List.dedup_cons_of_not_mem (by simp), List.dedup_nil]
      rfl
  · intro h12
    subst h12
    constructor
    · unfold Mapper.uniqueCountFor
      rw [hXlist, List.dedup_cons_of_mem (by simp),
        List.dedup_cons_of_not_mem (by simp), List.dedup_nil]
      rfl
    · unfold Mapper.uniqueCountFor
      rw [hYlist, List.dedup_cons_of_not_mem (by simp), List.dedup_nil]
      rfl

/-- Witness for C6 at concrete countries and values: differing count values
give {X:2, Y:1}. -/
theorem C6_witness :
    Mapper.uniqueCountFor
        [Mapper.MapRow.mk (some "France") (some "s1"),
         Mapper.MapRow.mk (some "France") (some "s2"),
         Mapper.MapRow.mk (some "Spain") (some "s3")] "France" = 2
    ∧ Mapper.uniqueCountFor
        [Mapper.MapRow.mk (some "France") (some "s1"),
         Mapper.MapRow.mk (some "France") (some "s2"),
         Mapper.MapRow.mk (some "Spain") (some "s3")] "Spain" = 1 :=
  (C6_spec [] "" "France" "Spain" "s1" "s2" "s3" (by decide)).2.1 (by decide)

/-- C7: the claim says every script exits with non-zero status when an
error occurs during processing.  False for the taxonomy extractor: a failed
directory load is caught and printed by `load_and_process_files`, which
returns `None`; `main` merely skips the directory and the script finishes
normally with exit status 0. -/
theorem C7_counterexample :
    (none : Option (List ExtractTax.MergedRow × List ExtractTax.TaxRow
        × List ExtractTax.LabRow))
      ∈ [(none : Option (List ExtractTax.MergedRow × List ExtractTax.TaxRow
        × List ExtractTax.LabRow))]
    ∧ (ExtractTax.extract_taxonomy_main [none] true ["BGE_00001"]).2 = 0 :=
  ⟨List.mem_singleton.mpr rfl, rfl⟩

/-- C7 (amended): the choropleth mapper and the sunburst generator exit
with status 1 when the caught exception path is taken, both mergers exit
with status 1 when the merge function reports failure (and 0 on success),
but the taxonomy extractor always finishes with exit status 0, even when
some directory loads fail. -/
theorem C7_amended_spec :
    (∀ e : String, Sunburst.sunburst_main_exit (.error e) = 1)
    ∧ Merge.merger_main_exit false = 1
    ∧ Merge.merger_main_exit true = 0
    ∧ (∀ e : String, Mapper.mapper_main_exit (.error e) = 1)
    ∧ (∀ (dirs : List (Option (List ExtractTax.MergedRow × List ExtractTax.TaxRow
          × List ExtractTax.LabRow))) (hasCol : Bool) (ts : List String),
        (ExtractTax.extract_taxonomy_main dirs hasCol ts).2 = 0) :=
  ⟨fun _ => rfl, rfl, rfl, fun _ => rfl, fun _ _ _ => rfl⟩

namespace Sunburst

theorem layoutSibs_levels (n level : Nat) (T : Nat) (size : ℚ) (path : List String)
    (child : String → HVal → ℚ → ℚ → List Segment)
    (hchild : ∀ k v cur a s, s ∈ child k v cur a → level + 2 ≤ s.level) :
    ∀ (l : List (String × HVal)) (cur : ℚ) (s : Segment),
      s ∈ layoutSibs n level T size path child l cur → level + 1 ≤ s.level := by
  intro l
  induction l with
  | nil => intro cur s h; simp [layoutSibs] at h
  | cons p rest ih =>
    intro cur s h
    obtain ⟨k, v⟩ := p
    rw [layoutSibs] at h
    rcases List.mem_cons.mp h with h | h
    · subst h; simp
    · rcases List.mem_append.mp h with h | h
      · exact Nat.le_of_succ_le (hchild k v _ _ s h)
      · exact ih _ s h

theorem process_level_levels (n : Nat) (thr : ℚ) (lbl : String) :
    ∀ (fuel : Nat) (d : List (String × HVal)) (level : Nat) (start size : ℚ)
      (path : List String) (s : Segment),
      s ∈ process_level n thr lbl fuel d level start size path →
      level + 1 ≤ s.level := by
  intro fuel
  induction fuel with
  | zero => intro d level start size path s h; simp [process_level] at h
  | succ fuel ih =>
    intro d level start size path s h
    rw [process_level] at h
    by_cases hn : n ≤ level
    · rw [if_pos hn] at h; simp at h
    · rw [if_neg hn] at h
      refine layoutSibs_levels n level _ size path _ ?_ _ _ s h
      intro k v cur a s' hs'
      cases v with
      | leaf m => simp at hs'
      | node kids =>
        have hs2 : s' ∈ (if level + 1 < n then
            process_level n thr lbl fuel kids (level + 1) cur a (path ++ [k])
          else []) := hs'
        by_cases hlt : level + 1 < n
        · rw [if_pos hlt] at hs2
          exact ih kids (level + 1) cur a (path ++ [k]) s' hs2
        · rw [if_neg hlt] at hs2; simp at hs2

theorem layoutSibs_filter_sizes (n level : Nat) (T : Nat) (size : ℚ)
    (path : List String) (child : String → HVal → ℚ → ℚ → List Segment)
    (hchild : ∀ k v cur a s, s ∈ child k v cur a → s.level ≠ level + 1) :
    ∀ (l : List (String × HVal)) (cur : ℚ),
      ((layoutSibs n level T size path child l cur).filter
          (fun s => s.level == level + 1)).map (fun s => s.endAngle - s.startAngle)
        = l.map (fun p => ((calculate_total_recursive p.2 : ℚ) / (T : ℚ)) * size) := by
  intro l
  induction l with
  | nil => intro cur; simp [layoutSibs]
  | cons p rest ih =>
    intro cur
    obtain ⟨k, v⟩ := p
    rw [layoutSibs]
    have hcf : (child k v cur
          (((calculate_total_recursive v : ℚ) / (T : ℚ)) * size)).filter
        (fun s => s.level == level + 1) = [] := by
      rw [List.filter_eq_nil_iff]
      intro s hs
      simpa using hchild k v _ _ s hs
    simp only [List.filter_cons, List.filter_append, hcf, List.nil_append]
    rw [if_pos (by simp)]
    rw [List.map_cons, ih]
    simp

theorem layoutSibs_consec (n level : Nat) (T : Nat) (size : ℚ)
    (path : List String) (child : String → HVal → ℚ → ℚ → List Segment)
    (hchild : ∀ k v cur a s, s ∈ child k v cur a → s.level ≠ level + 1) :
    ∀ (l : List (String × HVal)) (cur : ℚ),
      consecutiveFromB cur ((layoutSibs n level T size path child l cur).filter
          (fun s => s.level == level + 1)) = true := by
  intro l
  induction l with
  | nil => intro cur; simp [layoutSibs, consecutiveFromB]
  | cons p rest ih =>
    intro cur
    obtain ⟨k, v⟩ := p
    rw [layoutSibs]
    have hcf : (child k v cur
          (((calculate_total_recursive v : ℚ) / (T : ℚ)) * size)).filter
        (fun s => s.level == level + 1) = [] := by
      rw [List.filter_eq_nil_iff]
      intro s hs
      simpa using hchild k v _ _ s hs
    simp only [List.filter_cons, List.filter_append, hcf, List.nil_append]
    rw [if_pos (by simp)]
    rw [consecutiveFromB]
    simp only [beq_self_eq_true, Bool.true_and]
    exact ih (cur + (calculate_total_recursive v : ℚ) / (T : ℚ) * size)

theorem totalOfList_cast (d : List (String × HVal)) :
    ((totalOfList d : ℚ))
      = (d.map (fun p => (calculate_total_recursive p.2 : ℚ))).sum := by
  induction d with
  | nil => simp
  | cons p rest ih =>
    rw [totalOfList_cons]
    push_cast
    rw [ih, List.map_cons, List.sum_cons]

theorem sortDesc_perm (d : List (String × HVal)) : (sortDesc d).Perm d :=
  List.mergeSort_perm d _

theorem sum_sizes (d : List (String × HVal)) (size : ℚ) (hT : 0 < totalOfList d) :
    ((sortDesc d).map (fun p =>
        ((calculate_total_recursive p.2 : ℚ) / (totalOfList d : ℚ)) * size)).sum
      = size := by
  have hperm := (sortDesc_perm d).map (fun p =>
    ((calculate_total_recursive p.2 : ℚ) / (totalOfList d : ℚ)) * size)
  rw [hperm.sum_eq]
  have hne : ((totalOfList d : ℚ)) ≠ 0 := by
    have hq : (0 : ℚ) < (totalOfList d : ℚ) := by exact_mod_cast hT
    exact ne_of_gt hq
  have hsum : ∀ (l : List (String × HVal)),
      (l.map (fun p =>
          ((calculate_total_recursive p.2 : ℚ) / (totalOfList d : ℚ)) * size)).sum
        = (l.map (fun p => (calculate_total_recursive p.2 : ℚ))).sum
            / (totalOfList d : ℚ) * size := by
    intro l
    induction l with
    | nil => simp
    | cons p rest ih =>
      rw [List.map_cons, List.sum_cons, ih, List.map_cons, List.sum_cons]
      ring
  rw [hsum, ← totalOfList_cast, div_self hne, one_mul]

end Sunburst

/-- C5: in the angular layout, every recursive `process_level` call (one
per internal node of the processed hierarchy, starting from the root call
with start 0 and span 360) gives each sibling a wedge of size
`subtree count / sibling total * parent size`; the sibling wedges are
consecutive from the parent's start angle and their sizes sum to the
parent's size, so the top-level wedges span exactly 360 degrees from 0. -/
theorem C5_spec (n : Nat) (thr : ℚ) (lbl : String) :
    (∀ (d : List (String × Sunburst.HVal)) (level : Nat) (start size : ℚ)
        (path : List String),
        level < n →
        0 < Sunburst.totalOfList (Sunburst.processedData thr lbl level path d) →
        (((Sunburst.process_level n thr lbl (n - level) d level start size path).filter
            (fun s => s.level == level + 1)).map (fun s => s.endAngle - s.startAngle)
          = (Sunburst.sortDesc (Sunburst.processedData thr lbl level path d)).map
              (fun p => ((Sunburst.calculate_total_recursive p.2 : ℚ)
                / (Sunburst.totalOfList (Sunburst.processedData thr lbl level path d) : ℚ))
                * size))
        ∧ Sunburst.consecutiveFromB start
            ((Sunburst.process_level n thr lbl (n - level) d level start size path).filter
              (fun s => s.level == level + 1)) = true
        ∧ (((Sunburst.process_level n thr lbl (n - level) d level start size path).filter
            (fun s => s.level == level + 1)).map
              (fun s => s.endAngle - s.startAngle)).sum = size)
    ∧ (∀ hierarchy : List (String × Sunburst.HVal),
        0 < n →
        0 < Sunburst.totalOfList (Sunburst.topProcessed thr lbl hierarchy) →
        Sunburst.consecutiveFromB 0 ((Sunburst.sunburstSegments n thr lbl hierarchy).filter
            (fun s => s.level == 1)) = true
        ∧ (((Sunburst.sunburstSegments n thr lbl hierarchy).filter
            (fun s => s.level == 1)).map (fun s => s.endAngle - s.startAngle)).sum
          = 360) := by
  have hmain : ∀ (d : List (String × Sunburst.HVal)) (level : Nat) (start size : ℚ)
      (path : List String),
      level < n →
      0 < Sunburst.totalOfList (Sunburst.processedData thr lbl level path d) →
      (((Sunburst.process_level n thr lbl (n - level) d level start size path).filter
          (fun s => s.level == level + 1)).map (fun s => s.endAngle - s.startAngle)
        = (Sunburst.sortDesc (Sunburst.processedData thr lbl level path d)).map
            (fun p => ((Sunburst.calculate_total_recursive p.2 : ℚ)
              / (Sunburst.totalOfList (Sunburst.processedData thr lbl level path d) : ℚ))
              * size))
      ∧ Sunburst.consecutiveFromB start
          ((Sunburst.process_level n thr lbl (n - level) d level start size path).filter
            (fun s => s.level == level + 1)) = true
      ∧ (((Sunburst.process_level n thr lbl (n - level) d level start size path).filter
          (fun s => s.level == level + 1)).map
            (fun s => s.endAngle - s.startAngle)).sum = size := by
    intro d level start size path hlevel hpos
    obtain ⟨fuel, hf⟩ : ∃ f, n - level = f + 1 := ⟨n - level - 1, by omega⟩
    rw [hf, Sunburst.process_level, if_neg (not_le.mpr hlevel)]
    have hchild : ∀ (k : String) (v : Sunburst.HVal) (cur a : ℚ) (s : Sunburst.Segment),
        s ∈ (fun k v cur a =>
          match v with
          | Sunburst.HVal.leaf _ => []
          | Sunburst.HVal.node kids =>
              if level + 1 < n then
                Sunburst.process_level n thr lbl fuel kids (level + 1) cur a (path ++ [k])
              else []) k v cur a → s.level ≠ level + 1 := by
      intro k v cur a s hs
      cases v with
      | leaf m => simp at hs
      | node kids =>
        have hs2 : s ∈ (if level + 1 < n then
            Sunburst.process_level n thr lbl fuel kids (level + 1) cur a (path ++ [k])
          else []) := hs
        by_cases hlt : level + 1 < n
        · rw [if_pos hlt] at hs2
          have := Sunburst.process_level_levels n thr lbl fuel kids (level + 1) cur a
            (path ++ [k]) s hs2
          omega
        · rw [if_neg hlt] at hs2; simp at hs2
    refine ⟨?_, ?_, ?_⟩
    · exact Sunburst.layoutSibs_filter_sizes n level _ size path _ hchild _ start
    · exact Sunburst.layoutSibs_consec n level _ size path _ hchild _ start
    · rw [Sunburst.layoutSibs_filter_sizes n level _ size path _ hchild _ start]
      exact Sunburst.sum_sizes _ size hpos
  refine ⟨hmain, ?_⟩
  intro hierarchy hn hpos
  have h0 : Sunburst.processedData thr lbl 0 [] (Sunburst.topProcessed thr lbl hierarchy)
      = Sunburst.topProcessed thr lbl hierarchy := by
    simp [Sunburst.processedData]
  have h := hmain (Sunburst.topProcessed thr lbl hierarchy) 0 0 360 [] hn
    (by rw [h0]; exact hpos)
  exact ⟨h.2.1, h.2.2⟩

/-- Witness for C5: a two-level hierarchy with total 4 gives consecutive
top-level wedges spanning 360 degrees from 0. -/
theorem C5_witness :
    Sunburst.consecutiveFromB 0 ((Sunburst.sunburstSegments 2 0 "Other"
        [("A", Sunburst.HVal.node [("x", Sunburst.HVal.leaf 1)]),
         ("B", Sunburst.HVal.leaf 3)]).filter (fun s => s.level == 1)) = true
    ∧ (((Sunburst.sunburstSegments 2 0 "Other"
        [("A", Sunburst.HVal.node [("x", Sunburst.HVal.leaf 1)]),
         ("B", Sunburst.HVal.leaf 3)]).filter (fun s => s.level == 1)).map
          (fun s => s.endAngle - s.startAngle)).sum = 360 :=
  (C5_spec 2 0 "Other").2
    [("A", Sunburst.HVal.node [("x", Sunburst.HVal.leaf 1)]),
     ("B", Sunburst.HVal.leaf 3)]
    (by norm_num)
    (by norm_num [Sunburst.topProcessed])
